import Mathlib

/-!
Verification of the image-grid processing pipeline of `src/utils/imageUtils.js`
(grid compositor `createGrid8`, seam eraser `removeGridLines`, grid splitter
`splitGrid8`, background remover `removeBackgroundSimple`) and of the grid
trimming loop of `src/App.jsx` (`handleSplitGrids`).

Bitmaps are modelled as a width, a height and a flat list of RGBA bytes in
row-major order, exactly as the JavaScript code views an ImageData buffer.
JavaScript float arithmetic on small integers is modelled exactly over the
integers: an average `(r+g+b)/3` compared against a bound `t` is the integer
comparison of `r+g+b` against `3*t`, and `Math.round(p/q)` for nonnegative
integers is round-half-up, `(2*p+q)/(2*q)` in integer division.  All concrete
inputs used in counterexamples and witnesses were chosen away from the rare
knife-edge values where double rounding could differ from exact arithmetic.

Browser primitives that are external to the source (canvas `drawImage`
rasterisation, i.e. resampling/scaling) are taken as function parameters of
the embedded operations: the code under verification only decides when they
are invoked and with which geometry.
-/

/-- An in-memory bitmap: RGBA bytes in row-major order, 4 bytes per pixel. -/
structure Bitmap where
  width : Nat
  height : Nat
  data : List Nat
deriving DecidableEq, Repr

deriving instance DecidableEq for Except

/-- Byte access into the pixel buffer; out-of-range reads default to 0
(the source never reads out of range on well-formed buffers). -/
def byteAt (img : Bitmap) (i : Nat) : Nat := img.data.getD i 0

/-- Sum of the three colour channels of the pixel at (x, y); the source
compares `(r+g+b)/3` against thresholds, which we scale by 3. -/
def pixSum (img : Bitmap) (x y : Nat) : Nat :=
  byteAt img ((y * img.width + x) * 4) +
  byteAt img ((y * img.width + x) * 4 + 1) +
  byteAt img ((y * img.width + x) * 4 + 2)

/-- A pixel is background-bright when its channel average strictly exceeds
the threshold, i.e. `(r+g+b)/3 > t`, exactly `3*t < r+g+b`. -/
def brightPix (img : Bitmap) (t : Int) (x y : Nat) : Bool :=
  decide (3 * t < (pixSum img x y : Int))

/-- Border test of `removeBackgroundSimple`: first or last column or row. -/
def isBorder (w h x y : Nat) : Bool :=
  decide (x = 0 ∨ x = w - 1 ∨ y = 0 ∨ y = h - 1)

/-- State of the flood fill of `removeBackgroundSimple`: the `toRemove` and
`visited` flag arrays (indexed by `y*width+x`) and the FIFO work queue. -/
structure FloodState where
  toRemove : Nat → Bool
  visited : Nat → Bool
  queue : List (Nat × Nat)

/-- Set one flag in a flag array. -/
def setTrue (f : Nat → Bool) (i : Nat) : Nat → Bool :=
  fun j => if j = i then true else f j

/-- All pixel coordinates in the scan order of the seeding double loop
(y outer, x inner). -/
def coordsList (w h : Nat) : List (Nat × Nat) :=
  (List.range h).flatMap (fun y => (List.range w).map (fun x => (x, y)))

/-- Seeding step: a border pixel whose average exceeds the threshold is
marked for removal, marked visited, and enqueued. -/
def seedStep (img : Bitmap) (t : Int) (st : FloodState) (p : Nat × Nat) : FloodState :=
  if isBorder img.width img.height p.1 p.2 && brightPix img t p.1 p.2 then
    { toRemove := setTrue st.toRemove (p.2 * img.width + p.1)
      visited := setTrue st.visited (p.2 * img.width + p.1)
      queue := st.queue ++ [p] }
  else st

/-- The state after the border-seeding loop. -/
def seedState (img : Bitmap) (t : Int) : FloodState :=
  (coordsList img.width img.height).foldl (seedStep img t)
    { toRemove := fun _ => false, visited := fun _ => false, queue := [] }

/-- The four 4-connected neighbour directions, in source order. -/
def dirs : List (Int × Int) := [(-1, 0), (1, 0), (0, -1), (0, 1)]

/-- Examine one neighbour of the dequeued pixel (x, y): an unvisited
in-bounds neighbour is marked visited, and additionally marked for removal
and enqueued when its average exceeds the threshold. -/
def visitDir (img : Bitmap) (t : Int) (x y : Nat) (st : FloodState) (d : Int × Int) :
    FloodState :=
  let nx : Int := (x : Int) + d.1
  let ny : Int := (y : Int) + d.2
  if 0 ≤ nx ∧ nx < (img.width : Int) ∧ 0 ≤ ny ∧ ny < (img.height : Int) then
    let i := ny.toNat * img.width + nx.toNat
    if st.visited i then st
    else if brightPix img t nx.toNat ny.toNat then
      { toRemove := setTrue st.toRemove i
        visited := setTrue st.visited i
        queue := st.queue ++ [(nx.toNat, ny.toNat)] }
    else { st with visited := setTrue st.visited i }
  else st

/-- One iteration of the BFS loop: dequeue the front pixel and examine its
four neighbours. -/
def bfsStep (img : Bitmap) (t : Int) (st : FloodState) : FloodState :=
  match st.queue with
  | [] => st
  | p :: rest => dirs.foldl (visitDir img t p.1 p.2) { st with queue := rest }

/-- The BFS loop, fuelled; the fuel below provably exhausts the queue. -/
def bfsRun (img : Bitmap) (t : Int) : Nat → FloodState → FloodState
  | 0, st => st
  | fuel + 1, st =>
    match st.queue with
    | [] => st
    | _ :: _ => bfsRun img t fuel (bfsStep img t st)

/-- Fuel bound: every pixel is enqueued at most once, so this many
iterations empty the queue. -/
def floodFuel (img : Bitmap) (t : Int) : Nat :=
  (seedState img t).queue.length + 2 * (img.width * img.height) + 1

/-- The final removal mask of the threshold flood-fill pass. -/
def floodRemove (img : Bitmap) (t : Int) : Nat → Bool :=
  (bfsRun img t (floodFuel img t) (seedState img t)).toRemove

/-- Application loop over the byte buffer: position `i+3` of pixel `i/4`
(the alpha byte, index ≡ 3 mod 4) is zeroed when the pixel is marked. -/
def applyData (rm : Nat → Bool) : Nat → List Nat → List Nat
  | _, [] => []
  | i, b :: rest => (if i % 4 == 3 && rm (i / 4) then 0 else b) :: applyData rm (i + 1) rest

/-- The bitmap after the threshold pass of `removeBackgroundSimple`. -/
def floodApply (img : Bitmap) (t : Int) : Bitmap :=
  { img with data := applyData (floodRemove img t) 0 img.data }

/-- The mask loop reads the R byte of each mask pixel; a value 0 (PROTECT)
reaches the branch `data[i] = originalData[i]` whose `originalData` is an
undefined identifier in the source, raising a ReferenceError at run time. -/
def maskHasProtect (mask : List Nat) (numPix : Nat) : Bool :=
  (List.range numPix).any (fun p => mask.getD (4 * p) 0 == 0)

/-- Mask value 255 (DELETE) forces the alpha byte of that pixel to 0. -/
def maskDelete (mask : List Nat) : Nat → Bool :=
  fun p => mask.getD (4 * p) 0 == 255

/-- The background remover `removeBackgroundSimple(imageDataUrl, threshold,
maskData)`: threshold flood fill from the border, then the optional mask
pass.  A mask containing a PROTECT (0) pixel makes the source crash on the
undefined `originalData`, modelled as an error result. -/
def removeBackgroundSimple (img : Bitmap) (t : Int) (mask : Option (List Nat)) :
    Except Unit Bitmap :=
  let afterFlood := floodApply img t
  match mask with
  | none => Except.ok afterFlood
  | some m =>
    if maskHasProtect m ((img.data.length + 3) / 4) then Except.error ()
    else Except.ok { afterFlood with data := applyData (maskDelete m) 0 afterFlood.data }

/-- JavaScript `Math.round(p / q)` for nonnegative integers: round half up. -/
def roundHalfUp (p q : Nat) : Nat := (2 * p + q) / (2 * q)

/-- Sum of the three colour bytes starting at buffer position `i`. -/
def sum3 (data : List Nat) (i : Nat) : Nat :=
  data.getD i 0 + data.getD (i + 1) 0 + data.getD (i + 2) 0

/-- Overwrite the three colour bytes starting at buffer position `i`. -/
def set3 (data : List Nat) (i r g b : Nat) : List Nat :=
  ((data.set i r).set (i + 1) g).set (i + 2) b

/-- Background estimate of `removeGridLines`: the rounded average of the four
corner pixels, and whether it is a light background (mean channel > 200,
i.e. sum of the three rounded averages > 600). -/
structure BgEst where
  r : Nat
  g : Nat
  b : Nat
  light : Bool
deriving DecidableEq, Repr

/-- Corner sampling of `removeGridLines` over the byte buffer. -/
def bgEstimate (w h : Nat) (data : List Nat) : BgEst :=
  let corner := fun (c k : Nat) => data.getD (c + k) 0
  let c0 := 0
  let c1 := (w - 1) * 4
  let c2 := ((h - 1) * w) * 4
  let c3 := (h * w - 1) * 4
  let r := roundHalfUp (corner c0 0 + corner c1 0 + corner c2 0 + corner c3 0) 4
  let g := roundHalfUp (corner c0 1 + corner c1 1 + corner c2 1 + corner c3 1) 4
  let b := roundHalfUp (corner c0 2 + corner c1 2 + corner c2 2 + corner c3 2) 4
  { r := r, g := g, b := b, light := decide (600 < r + g + b) }

/-- The inverse-distance-weighted blend of two flanking bytes: the source value
`a*(rd/(ld+rd)) + b*(ld/(ld+rd))` rounded, with 0.5/0.5 weights when both
distances are 0 (a pixel flanked by itself twice). -/
def blendWeighted (a b ld rd : Nat) : Nat :=
  if ld + rd = 0 then roundHalfUp (a + b) 2
  else roundHalfUp (a * rd + b * ld) (ld + rd)

/-- Smoothing of one pixel of the vertical seam band.  Strategy 1 paints a
dark pixel (`avg < 200`) with the background colour when the background is
light and the pixel is within 3 of the seam centre; otherwise strategy 2
replaces the pixel with the weighted blend of the flanking pixels 5 to the
left and right when either brightness difference exceeds 15. -/
def smoothV (w : Nat) (bg : BgEst) (data : List Nat) (x y : Nat) (off : Int) : List Nat :=
  let i := (y * w + x) * 4
  if bg.light && decide (off.natAbs ≤ 3) && decide (sum3 data i < 600) then
    set3 data i bg.r bg.g bg.b
  else
    let lx := x - 5
    let rx := min (w - 1) (x + 5)
    let li := (y * w + lx) * 4
    let ri := (y * w + rx) * 4
    if 45 < ((sum3 data i : Int) - (sum3 data li : Int)).natAbs ∨
       45 < ((sum3 data i : Int) - (sum3 data ri : Int)).natAbs then
      let ld := x - lx
      let rd := rx - x
      set3 data i
        (blendWeighted (data.getD li 0) (data.getD ri 0) ld rd)
        (blendWeighted (data.getD (li + 1) 0) (data.getD (ri + 1) 0) ld rd)
        (blendWeighted (data.getD (li + 2) 0) (data.getD (ri + 2) 0) ld rd)
    else data

/-- Smoothing of one pixel of a horizontal seam band; flanks are 5 above and
5 below. -/
def smoothH (w h : Nat) (bg : BgEst) (data : List Nat) (x y : Nat) (off : Int) : List Nat :=
  let i := (y * w + x) * 4
  if bg.light && decide (off.natAbs ≤ 3) && decide (sum3 data i < 600) then
    set3 data i bg.r bg.g bg.b
  else
    let ty := y - 5
    let byy := min (h - 1) (y + 5)
    let ti := (ty * w + x) * 4
    let bi := (byy * w + x) * 4
    if 45 < ((sum3 data i : Int) - (sum3 data ti : Int)).natAbs ∨
       45 < ((sum3 data i : Int) - (sum3 data bi : Int)).natAbs then
      let td := y - ty
      let bd := byy - y
      set3 data i
        (blendWeighted (data.getD ti 0) (data.getD bi 0) td bd)
        (blendWeighted (data.getD (ti + 1) 0) (data.getD (bi + 1) 0) td bd)
        (blendWeighted (data.getD (ti + 2) 0) (data.getD (bi + 2) 0) td bd)
    else data

/-- One band position of `removeGridLines`: a vertical-seam position
(row `y`, horizontal offset `off` from `x = cellWidth`) or a
horizontal-seam position (seam line `ly`, vertical offset `off`, column `x`). -/
inductive SeamOp where
  | v (y : Nat) (off : Int)
  | hz (ly : Nat) (off : Int) (x : Nat)
deriving DecidableEq, Repr

/-- The offsets `-5 .. 5` scanned around each seam line. -/
def offsets : List Int := (List.range 11).map (fun k => (k : Int) - 5)

/-- All band positions of one pass, in source order: the vertical seam
(rows outer, offsets inner), then the three horizontal seams (lines outer,
offsets middle, columns inner). -/
def seamOps (w h cw ch : Nat) : List SeamOp :=
  ((List.range h).flatMap (fun y => offsets.map (fun o => SeamOp.v y o))) ++
  ([ch, 2 * ch, 3 * ch].flatMap (fun ly =>
    offsets.flatMap (fun o => (List.range w).map (fun x => SeamOp.hz ly o x))))

/-- Apply one band position: out-of-range positions are skipped. -/
def applySeamOp (w h cw : Nat) (bg : BgEst) (data : List Nat) (op : SeamOp) : List Nat :=
  match op with
  | SeamOp.v y off =>
    let xi : Int := (cw : Int) + off
    if 0 ≤ xi ∧ xi < (w : Int) then smoothV w bg data xi.toNat y off else data
  | SeamOp.hz ly off x =>
    let yi : Int := (ly : Int) + off
    if 0 ≤ yi ∧ yi < (h : Int) then smoothH w h bg data x yi.toNat off else data

/-- The seam-erasing core of `removeGridLines` on a bitmap already of the
expected size: the background is estimated once from the corners, then the
band positions are processed twice (two passes). -/
def gridCore (cw ch : Nat) (img : Bitmap) : Bitmap :=
  let ops := seamOps (2 * cw) (4 * ch) cw ch
  let bg := bgEstimate (2 * cw) (4 * ch) img.data
  { width := 2 * cw, height := 4 * ch
    data := (ops ++ ops).foldl (applySeamOp (2 * cw) (4 * ch) cw bg) img.data }

/-- A canvas of the given size whose content is produced by the external
resampling primitive (`drawImage` stretch), taken as a parameter. -/
def stretchTo (stretch : Bitmap → Nat → Nat → List Nat) (img : Bitmap) (w h : Nat) :
    Bitmap :=
  { width := w, height := h, data := stretch img w h }

/-- The seam eraser `removeGridLines(gridImageDataUrl, cellWidth, cellHeight)`:
a bitmap whose dimensions differ from `2*cellWidth x 4*cellHeight` is first
resampled (stretched) to that size, then the two smoothing passes run. -/
def removeGridLines (stretch : Bitmap → Nat → Nat → List Nat) (img : Bitmap)
    (cw ch : Nat) : Bitmap :=
  let src :=
    if img.width = 2 * cw ∧ img.height = 4 * ch then img
    else stretchTo stretch img (2 * cw) (4 * ch)
  gridCore cw ch src

/-- Crop of one cell: pixel (xs, ys) of the cell is pixel
(col*cellWidth + xs, row*cellHeight + ys) of the source grid. -/
def cropCell (src : Bitmap) (cw ch row col : Nat) : Bitmap :=
  { width := cw, height := ch
    data := (List.range ch).flatMap (fun ys =>
      (List.range cw).flatMap (fun xs =>
        [byteAt src (((row * ch + ys) * src.width + (col * cw + xs)) * 4),
         byteAt src (((row * ch + ys) * src.width + (col * cw + xs)) * 4 + 1),
         byteAt src (((row * ch + ys) * src.width + (col * cw + xs)) * 4 + 2),
         byteAt src (((row * ch + ys) * src.width + (col * cw + xs)) * 4 + 3)])) }

/-- The 8 cell crops of a grid bitmap, in row-major order. -/
def cropAll (src : Bitmap) (cw ch : Nat) : List Bitmap :=
  (List.range 4).flatMap (fun row => (List.range 2).map (fun col => cropCell src cw ch row col))

/-- The grid splitter `splitGrid8(gridImageDataUrl, cellWidth, cellHeight)`:
seam removal first, then resampling to `2*cellWidth x 4*cellHeight` if the
dimensions are off, then the 8 cell crops in row-major order. -/
def splitGrid8 (stretch : Bitmap → Nat → Nat → List Nat) (img : Bitmap)
    (cw ch : Nat) : List Bitmap :=
  let cleaned := removeGridLines stretch img cw ch
  let src :=
    if cleaned.width = 2 * cw ∧ cleaned.height = 4 * ch then cleaned
    else stretchTo stretch cleaned (2 * cw) (4 * ch)
  cropAll src cw ch

/-- Geometry of one compositor draw: cell rectangle from the index
(row = index / 2, col = index mod 2), uniform fit-within scale, centred.
Coordinates are exact rationals; the rasterisation itself is external. -/
structure DrawCmd where
  img : Bitmap
  offX : ℚ
  offY : ℚ
  scaledW : ℚ
  scaledH : ℚ
deriving Repr

/-- The draw geometry computed by `createGrid8` for the image at `idx`. -/
def drawCmdFor (cw ch idx : Nat) (im : Bitmap) : DrawCmd :=
  let col := idx % 2
  let row := idx / 2
  let s : ℚ := min ((cw : ℚ) / (im.width : ℚ)) ((ch : ℚ) / (im.height : ℚ))
  let sw := (im.width : ℚ) * s
  let sh := (im.height : ℚ) * s
  { img := im
    offX := (col * cw : ℚ) + ((cw : ℚ) - sw) / 2
    offY := (row * ch : ℚ) + ((ch : ℚ) - sh) / 2
    scaledW := sw
    scaledH := sh }

/-- The compositor canvas before any draw: opaque white, 2 x 4 cells. -/
def whiteCanvas (cw ch : Nat) : Bitmap :=
  { width := 2 * cw, height := 4 * ch
    data := List.replicate (2 * cw * (4 * ch) * 4) 255 }

/-- The compositor draw loop: index at least 8 is skipped (`if (index >= 8)
return`), a failed decode (`none`) counts as loaded but draws nothing, and a
loaded image is drawn onto the canvas by the external rasteriser `draw`
(which cannot change the canvas dimensions). -/
def drawAll (draw : Bitmap → DrawCmd → List Nat) (cw ch : Nat) :
    Nat → List (Option Bitmap) → Bitmap → Bitmap
  | _, [], c => c
  | i, Option.some im :: rest, c =>
    drawAll draw cw ch (i + 1) rest
      (if 8 ≤ i then c else { c with data := draw c (drawCmdFor cw ch i im) })
  | i, Option.none :: rest, c => drawAll draw cw ch (i + 1) rest c

/-- The grid compositor `createGrid8(images, cellWidth, cellHeight)`: a
`2*cellWidth x 4*cellHeight` white canvas, rejected when no image is
supplied, otherwise the first eight images drawn into their cells. -/
def createGrid8 (draw : Bitmap → DrawCmd → List Nat) (images : List (Option Bitmap))
    (cw ch : Nat) : Except Unit Bitmap :=
  if min images.length 8 = 0 then Except.error ()
  else Except.ok (drawAll draw cw ch 0 images (whiteCanvas cw ch))

/-- The per-grid trimming loop of `handleSplitGrids` in `App.jsx`: grid
`gi` contributes `cutCells.slice(0, actualCutCount)` where
`actualCutCount = min(startIndex + 8, count) - startIndex`. -/
def cutLoop (stretch : Bitmap → Nat → Nat → List Nat) (count cw ch : Nat) :
    Nat → List Bitmap → List Bitmap
  | _, [] => []
  | gi, g :: rest =>
    (splitGrid8 stretch g cw ch).take (min (gi * 8 + 8) count - gi * 8) ++
      cutLoop stretch count cw ch (gi + 1) rest

/-- The full split step of `handleSplitGrids`: all grids in order, each
trimmed to its actual sticker count. -/
def handleCutGrids (stretch : Bitmap → Nat → Nat → List Nat) (grids : List Bitmap)
    (count cw ch : Nat) : List Bitmap :=
  cutLoop stretch count cw ch 0 grids

/-- Grayscale RGBA buffer: each value becomes an opaque gray pixel. -/
def grayData (vs : List Nat) : List Nat := vs.flatMap (fun v => [v, v, v, 255])

/-- A concrete external resampler used to instantiate the `stretch` and
`draw` parameters in closed statements. -/
def str0 : Bitmap → Nat → Nat → List Nat := fun i _ _ => i.data

/-- The 5x5 moat bitmap: fully white border and moat ring, single black
interior pixel at the centre. -/
def moat5 : Bitmap :=
  { width := 5, height := 5
    data := (List.range 25).flatMap (fun p =>
      if p = 12 then [0, 0, 0, 255] else [255, 255, 255, 255]) }

/-- Expected result on `moat5`: every white pixel turns transparent, the
black centre keeps its original alpha. -/
def moat5Out : Bitmap :=
  { width := 5, height := 5
    data := (List.range 25).flatMap (fun p =>
      if p = 12 then [0, 0, 0, 255] else [255, 255, 255, 0]) }

/-- A 3x3 all-black opaque bitmap (no border pixel is bright). -/
def black3 : Bitmap := { width := 3, height := 3, data := grayData (List.replicate 9 0) }

/-- A 1x1 all-black opaque bitmap. -/
def black1 : Bitmap := { width := 1, height := 1, data := [0, 0, 0, 255] }

/-- A 1x1 white bitmap used as the image under the PROTECT mask. -/
def white1 : Bitmap := { width := 1, height := 1, data := [255, 255, 255, 255] }

/-- Gray values of the seam-eraser counterexample input (a 2x16 bitmap for
cellWidth = 1, cellHeight = 4). -/
def c3wVals : List Nat :=
  [185, 41, 236, 101, 236, 26, 183, 66, 110, 82, 226, 90, 90, 18, 56, 11,
   87, 242, 214, 41, 217, 44, 73, 158, 2, 195, 168, 69, 207, 102, 28, 108]

/-- The seam-eraser counterexample input bitmap. -/
def c3w : Bitmap := { width := 2, height := 16, data := grayData c3wVals }

/-- Buffer after pass 1 of the first `removeGridLines` call on `c3w`. -/
def c3e1m : List Nat := grayData
  [185, 41, 169, 37, 148, 26, 175, 61, 198, 55, 201, 43, 121, 98, 97, 68,
   122, 79, 203, 79, 115, 76, 69, 104, 54, 93, 55, 100, 57, 103, 28, 108]

/-- Buffer after the first `removeGridLines` call on `c3w`. -/
def c3e1 : List Nat := grayData
  [185, 41, 174, 51, 160, 49, 156, 55, 160, 59, 150, 59, 122, 78, 109, 72,
   103, 77, 109, 81, 89, 84, 70, 95, 58, 95, 49, 99, 42, 104, 28, 108]

/-- Buffer after pass 1 of the second call. -/
def c3e2m : List Nat := grayData
  [185, 41, 175, 47, 163, 50, 154, 55, 146, 59, 137, 63, 123, 71, 111, 73,
   102, 77, 94, 82, 83, 86, 70, 92, 59, 95, 49, 99, 39, 104, 28, 108]

/-- Buffer after the second call (the image `eraseSeams(eraseSeams(x))`
for `x = c3w`). -/
def c3e2 : List Nat := grayData
  [185, 41, 175, 46, 164, 50, 154, 55, 144, 59, 134, 64, 123, 69, 112, 73,
   102, 77, 92, 82, 81, 86, 70, 91, 60, 95, 49, 99, 39, 104, 28, 108]

/-- Buffer after pass 1 of the third call. -/
def c3e3m : List Nat := grayData
  [185, 41, 175, 46, 164, 50, 154, 55, 144, 59, 133, 64, 123, 69, 112, 73,
   102, 77, 92, 82, 81, 86, 70, 91, 60, 95, 49, 99, 39, 104, 28, 108]

/-- Buffer after the third call: differs from `c3e2` at the pixel with
gray value 133 versus 134. -/
def c3e3 : List Nat := grayData
  [185, 41, 175, 46, 164, 50, 154, 55, 144, 59, 133, 64, 123, 69, 112, 73,
   102, 77, 92, 82, 81, 86, 70, 91, 60, 95, 49, 99, 39, 104, 28, 108]

/-- A 2x4 all-white opaque bitmap (a fixed point of the seam eraser for
cellWidth = cellHeight = 1). -/
def white24 : Bitmap := { width := 2, height := 4, data := grayData (List.replicate 8 255) }

/-- A 12x24 constant gray bitmap, the expected size for cellWidth =
cellHeight = 6; its top-left pixel lies outside every seam band. -/
def gray1224 : Bitmap :=
  { width := 12, height := 24, data := grayData (List.replicate 288 200) }

/-- Flat flag-array index of a coordinate pair. -/
def pixIdx (w : Nat) (p : Nat × Nat) : Nat := p.2 * w + p.1

/-- In-bounds predicate for a coordinate pair. -/
def inBoundsP (w h : Nat) (p : Nat × Nat) : Prop := p.1 < w ∧ p.2 < h

/-- 4-connected adjacency of two coordinate pairs. -/
def adjacentP (p q : Nat × Nat) : Prop :=
  (q.1 = p.1 + 1 ∧ q.2 = p.2) ∨ (p.1 = q.1 + 1 ∧ q.2 = p.2) ∨
  (q.2 = p.2 + 1 ∧ q.1 = p.1) ∨ (p.2 = q.2 + 1 ∧ q.1 = p.1)

/-- Border predicate matching `isBorder`, together with bounds. -/
def borderP (w h : Nat) (p : Nat × Nat) : Prop :=
  inBoundsP w h p ∧ (p.1 = 0 ∨ p.1 = w - 1 ∨ p.2 = 0 ∨ p.2 = h - 1)

/-- One flood-fill expansion step: move to an in-bounds 4-neighbour whose
average exceeds the threshold. -/
def floodStepP (img : Bitmap) (t : Int) (p q : Nat × Nat) : Prop :=
  adjacentP p q ∧ inBoundsP img.width img.height q ∧ brightPix img t q.1 q.2 = true

/-- A pixel is flood-reachable when some above-threshold border pixel
reaches it through above-threshold pixels (4-connected). -/
def reachableFromBorder (img : Bitmap) (t : Int) (p : Nat × Nat) : Prop :=
  ∃ b, borderP img.width img.height b ∧ brightPix img t b.1 b.2 = true ∧
    Relation.ReflTransGen (floodStepP img t) b p

/-- Invariant of the flood-fill state, preserved by seeding and by every
BFS iteration. -/
structure FloodInv (img : Bitmap) (t : Int) (st : FloodState) : Prop where
  rm_sound : ∀ p, inBoundsP img.width img.height p →
    st.toRemove (pixIdx img.width p) = true →
    brightPix img t p.1 p.2 = true ∧ reachableFromBorder img t p
  queue_mem : ∀ p ∈ st.queue, inBoundsP img.width img.height p ∧
    st.toRemove (pixIdx img.width p) = true
  visited_bright : ∀ p, inBoundsP img.width img.height p →
    st.visited (pixIdx img.width p) = true → brightPix img t p.1 p.2 = true →
    st.toRemove (pixIdx img.width p) = true
  frontier : ∀ p, inBoundsP img.width img.height p →
    st.toRemove (pixIdx img.width p) = true →
    p ∈ st.queue ∨ ∀ q, inBoundsP img.width img.height q → adjacentP p q →
      st.visited (pixIdx img.width q) = true
  seeded : ∀ p, borderP img.width img.height p → brightPix img t p.1 p.2 = true →
    st.toRemove (pixIdx img.width p) = true

/-- Mid-iteration weakening of `FloodInv`: the dequeued pixel `p` is
excused from the frontier condition while its neighbours are examined. -/
structure FloodMidInv (img : Bitmap) (t : Int) (p : Nat × Nat) (st : FloodState) : Prop where
  rm_sound : ∀ q, inBoundsP img.width img.height q →
    st.toRemove (pixIdx img.width q) = true →
    brightPix img t q.1 q.2 = true ∧ reachableFromBorder img t q
  queue_mem : ∀ q ∈ st.queue, inBoundsP img.width img.height q ∧
    st.toRemove (pixIdx img.width q) = true
  visited_bright : ∀ q, inBoundsP img.width img.height q →
    st.visited (pixIdx img.width q) = true → brightPix img t q.1 q.2 = true →
    st.toRemove (pixIdx img.width q) = true
  frontier2 : ∀ q, inBoundsP img.width img.height q →
    st.toRemove (pixIdx img.width q) = true →
    q ∈ st.queue ∨ q = p ∨ ∀ r, inBoundsP img.width img.height r → adjacentP q r →
      st.visited (pixIdx img.width r) = true
  seeded : ∀ q, borderP img.width img.height q → brightPix img t q.1 q.2 = true →
    st.toRemove (pixIdx img.width q) = true
  pop_rm : inBoundsP img.width img.height p ∧ st.toRemove (pixIdx img.width p) = true

/-- Number of unvisited flag indices; the BFS measure decreases every
iteration. -/
def unvisitedCount (w h : Nat) (st : FloodState) : Nat :=
  ((Finset.range (w * h)).filter (fun i => st.visited i = false)).card

/-- Termination measure of the BFS loop. -/
def floodMeasure (w h : Nat) (st : FloodState) : Nat :=
  st.queue.length + 2 * unvisitedCount w h st

/-- All byte values of a bitmap buffer are in range (Uint8ClampedArray). -/
def validBytes (img : Bitmap) : Prop := ∀ b ∈ img.data, b ≤ 255

theorem foldl_fun_congr {α β : Type} (f g : α → β → α) (h : ∀ a b, f a b = g a b) :
    ∀ (l : List β) (a : α), l.foldl f a = l.foldl g a := by
  intro l
  induction l with
  | nil => intro a; rfl
  | cons b rest ih => intro a; simp only [List.foldl_cons, h, ih]

theorem drawAll_width (draw : Bitmap → DrawCmd → List Nat) (cw ch : Nat) :
    ∀ (l : List (Option Bitmap)) (i : Nat) (c : Bitmap),
      (drawAll draw cw ch i l c).width = c.width ∧
      (drawAll draw cw ch i l c).height = c.height := by
  intro l
  induction l with
  | nil => intro i c; exact ⟨rfl, rfl⟩
  | cons o rest ih =>
    intro i c
    cases o with
    | none => exact ih (i + 1) c
    | some im =>
      refine ⟨?_, ?_⟩
      · rw [drawAll, (ih (i + 1) _).1]; split <;> rfl
      · rw [drawAll, (ih (i + 1) _).2]; split <;> rfl

/-- C6: for positive cell dimensions and 1 to 8 valid source bitmaps, the
compositor `createGrid8` succeeds and returns a bitmap of width exactly
`2*cellWidth` and height exactly `4*cellHeight`. -/
theorem createGrid8_dims (draw : Bitmap → DrawCmd → List Nat)
    (images : List (Option Bitmap)) (cw ch : Nat)
    (hcw : 0 < cw) (hch : 0 < ch)
    (hlo : 1 ≤ images.length) (hhi : images.length ≤ 8)
    (hvalid : ∀ oi ∈ images, Option.isSome oi = true) :
    ∃ out, createGrid8 draw images cw ch = Except.ok out ∧
      out.width = 2 * cw ∧ out.height = 4 * ch := by
  have hne : ¬ (min images.length 8 = 0) := by omega
  refine ⟨drawAll draw cw ch 0 images (whiteCanvas cw ch), ?_, ?_, ?_⟩
  · simp [createGrid8, hne]
  · rw [(drawAll_width draw cw ch images 0 (whiteCanvas cw ch)).1]; rfl
  · rw [(drawAll_width draw cw ch images 0 (whiteCanvas cw ch)).2]; rfl

/-- Witness for C6 at a concrete draw function, one valid 1x1 source bitmap
and cell size 1x1. -/
theorem createGrid8_dims_witness :
    ∃ out, createGrid8 (fun c _ => c.data) [Option.some black1] 1 1 = Except.ok out ∧
      out.width = 2 * 1 ∧ out.height = 4 * 1 :=
  createGrid8_dims (fun c _ => c.data) [Option.some black1] 1 1
    (by decide) (by decide) (by decide) (by decide) (by decide)

theorem drawAll_stop (draw : Bitmap → DrawCmd → List Nat) (cw ch : Nat) :
    ∀ (l : List (Option Bitmap)) (i : Nat) (c : Bitmap), 8 ≤ i →
      drawAll draw cw ch i l c = c := by
  intro l
  induction l with
  | nil => intro i c _; rfl
  | cons o rest ih =>
    intro i c hi
    cases o with
    | none => exact ih (i + 1) c (by omega)
    | some im =>
      rw [drawAll, if_pos hi]
      exact ih (i + 1) c (by omega)

theorem drawAll_take (draw : Bitmap → DrawCmd → List Nat) (cw ch : Nat) :
    ∀ (l : List (Option Bitmap)) (i : Nat) (c : Bitmap),
      drawAll draw cw ch i l c = drawAll draw cw ch i (l.take (8 - i)) c := by
  intro l
  induction l with
  | nil => intro i c; rw [List.take_nil]
  | cons o rest ih =>
    intro i c
    by_cases hi : 8 ≤ i
    · have h0 : 8 - i = 0 := by omega
      rw [h0, List.take_zero, drawAll_stop draw cw ch _ _ _ hi]
      rfl
    · have hs : 8 - i = (8 - (i + 1)) + 1 := by omega
      rw [hs, List.take_succ_cons]
      cases o with
      | none => rw [drawAll, drawAll, ih]
      | some im => rw [drawAll, drawAll, ih]

/-- C10: with more than 8 source images the compositor still succeeds, and
its result is the same as on the first 8 images alone: images at index 8
and beyond are ignored. -/
theorem createGrid8_ignores_extra (draw : Bitmap → DrawCmd → List Nat)
    (images : List (Option Bitmap)) (cw ch : Nat) (hlen : 8 < images.length) :
    (∃ out, createGrid8 draw images cw ch = Except.ok out) ∧
    createGrid8 draw images cw ch = createGrid8 draw (images.take 8) cw ch := by
  have hne : ¬ (min images.length 8 = 0) := by omega
  have hne2 : ¬ (min (images.take 8).length 8 = 0) := by
    rw [List.length_take]; omega
  constructor
  · exact ⟨drawAll draw cw ch 0 images (whiteCanvas cw ch), by simp [createGrid8, hne]⟩
  · simp only [createGrid8, if_neg hne, if_neg hne2]
    rw [drawAll_take draw cw ch images 0 (whiteCanvas cw ch)]

/-- Witness for C10 with nine source images. -/
theorem createGrid8_ignores_extra_witness :
    (∃ out, createGrid8 (fun c _ => c.data) (List.replicate 9 (Option.some black1)) 1 1 =
      Except.ok out) ∧
    createGrid8 (fun c _ => c.data) (List.replicate 9 (Option.some black1)) 1 1 =
      createGrid8 (fun c _ => c.data) ((List.replicate 9 (Option.some black1)).take 8) 1 1 :=
  createGrid8_ignores_extra (fun c _ => c.data) (List.replicate 9 (Option.some black1)) 1 1
    (by decide)

theorem cropAll_length (src : Bitmap) (cw ch : Nat) : (cropAll src cw ch).length = 8 := by
  rfl

theorem splitGrid8_length (stretch : Bitmap → Nat → Nat → List Nat) (g : Bitmap)
    (cw ch : Nat) : (splitGrid8 stretch g cw ch).length = 8 :=
  cropAll_length _ cw ch

theorem cutLoop_append (stretch : Bitmap → Nat → Nat → List Nat) (count cw ch : Nat)
    (g : Bitmap) :
    ∀ (gs : List Bitmap) (gi : Nat),
      cutLoop stretch count cw ch gi (gs ++ [g]) =
        cutLoop stretch count cw ch gi gs ++
          (splitGrid8 stretch g cw ch).take
            (min ((gi + gs.length) * 8 + 8) count - (gi + gs.length) * 8) := by
  intro gs
  induction gs with
  | nil => intro gi; simp [cutLoop]
  | cons g0 rest ih =>
    intro gi
    rw [List.cons_append, cutLoop, cutLoop, ih (gi + 1), List.append_assoc]
    have harith : gi + 1 + rest.length = gi + (g0 :: rest).length := by
      simp [List.length_cons]; omega
    rw [harith]

/-- C2: the split step returns only `min(8, remainingCount)` cells for the
last grid.  `splitGrid8` itself yields 8 cells, and the trimming loop of
`handleSplitGrids` keeps exactly the first `min(8, remainingCount)` of the
last grid's cells, which equals `count mod 8` when the requested count is
not a multiple of 8 and the number of grids is `ceil(count/8)`; the
padding cells are exactly the dropped ones. -/
theorem splitter_trims_padding (stretch : Bitmap → Nat → Nat → List Nat)
    (gs : List Bitmap) (g : Bitmap) (count cw ch : Nat)
    (hlen : gs.length + 1 = (count + 7) / 8) (hmod : count % 8 ≠ 0) :
    (splitGrid8 stretch g cw ch).length = 8 ∧
    handleCutGrids stretch (gs ++ [g]) count cw ch =
      handleCutGrids stretch gs count cw ch ++
        (splitGrid8 stretch g cw ch).take (min 8 (count - 8 * gs.length)) ∧
    min 8 (count - 8 * gs.length) = count % 8 := by
  refine ⟨splitGrid8_length stretch g cw ch, ?_, by omega⟩
  unfold handleCutGrids
  rw [cutLoop_append stretch count cw ch g gs 0]
  have harith : min ((0 + gs.length) * 8 + 8) count - (0 + gs.length) * 8 =
      min 8 (count - 8 * gs.length) := by omega
  rw [harith]

/-- Witness for C2: one single grid for a requested count of 4 stickers. -/
theorem splitter_trims_padding_witness :
    (splitGrid8 str0 white24 1 1).length = 8 ∧
    handleCutGrids str0 ([] ++ [white24]) 4 1 1 =
      handleCutGrids str0 [] 4 1 1 ++
        (splitGrid8 str0 white24 1 1).take (min 8 (4 - 8 * ([] : List Bitmap).length)) ∧
    min 8 (4 - 8 * ([] : List Bitmap).length) = 4 % 8 :=
  splitter_trims_padding str0 [] white24 4 1 1 (by decide) (by decide)

/-- C8: a bitmap whose dimensions differ from `2*cellWidth x 4*cellHeight`
is not rejected by the seam eraser or the splitter: the seam eraser first
resamples it to the expected size and then proceeds, its result has exactly
the expected dimensions, and the splitter still returns its usual 8 cells. -/
theorem mismatched_dims_resampled (stretch : Bitmap → Nat → Nat → List Nat)
    (img : Bitmap) (cw ch : Nat)
    (h : img.width ≠ 2 * cw ∨ img.height ≠ 4 * ch) :
    removeGridLines stretch img cw ch =
      gridCore cw ch (stretchTo stretch img (2 * cw) (4 * ch)) ∧
    (removeGridLines stretch img cw ch).width = 2 * cw ∧
    (removeGridLines stretch img cw ch).height = 4 * ch ∧
    (splitGrid8 stretch img cw ch).length = 8 := by
  have hne : ¬ (img.width = 2 * cw ∧ img.height = 4 * ch) := by
    intro hc
    rcases h with h1 | h2
    · exact h1 hc.1
    · exact h2 hc.2
  refine ⟨?_, ?_, ?_, splitGrid8_length stretch img cw ch⟩
  · unfold removeGridLines
    rw [if_neg hne]
  · unfold removeGridLines
    rw [if_neg hne]
    rfl
  · unfold removeGridLines
    rw [if_neg hne]
    rfl

/-- Witness for C8: a 1x1 bitmap fed to the expected 2x4 pipeline. -/
theorem mismatched_dims_resampled_witness :
    removeGridLines str0 black1 1 1 =
      gridCore 1 1 (stretchTo str0 black1 (2 * 1) (4 * 1)) ∧
    (removeGridLines str0 black1 1 1).width = 2 * 1 ∧
    (removeGridLines str0 black1 1 1).height = 4 * 1 ∧
    (splitGrid8 str0 black1 1 1).length = 8 :=
  mismatched_dims_resampled str0 black1 1 1 (by decide)

/-- C5 (code bug): the claimed PROTECT semantics is not what the code does.
With a mask whose single pixel is PROTECT (value 0), the background remover
reaches `data[i] = originalData[i]` with `originalData` undefined and
crashes (ReferenceError) instead of restoring the pixel and completing. -/
theorem mask_protect_crashes :
    removeBackgroundSimple white1 240 (Option.some [0, 0, 0, 255]) = Except.error () := by
  decide

/-- C7 counterexample: thresholds below the valid range are not clamped.
On a 1x1 black bitmap, threshold -1 removes the pixel (0 > -1 seeds the
flood) while the nearest in-range threshold 0 removes nothing, so the
results differ. -/
theorem threshold_not_clamped_cex :
    removeBackgroundSimple black1 (-1) none ≠ removeBackgroundSimple black1 0 none := by
  decide

set_option maxRecDepth 100000 in
theorem c3call1_pass1 :
    (seamOps 2 16 1 4).foldl (applySeamOp 2 16 1 (bgEstimate 2 16 c3w.data)) c3w.data
      = c3e1m := by
  decide

set_option maxRecDepth 100000 in
theorem c3call1_pass2 :
    (seamOps 2 16 1 4).foldl (applySeamOp 2 16 1 (bgEstimate 2 16 c3w.data)) c3e1m
      = c3e1 := by
  decide

theorem c3call1 : removeGridLines str0 c3w 1 4 = Bitmap.mk 2 16 c3e1 := by
  show Bitmap.mk 2 16
    ((seamOps 2 16 1 4 ++ seamOps 2 16 1 4).foldl
      (applySeamOp 2 16 1 (bgEstimate 2 16 c3w.data)) c3w.data) = Bitmap.mk 2 16 c3e1
  rw [List.foldl_append, c3call1_pass1, c3call1_pass2]

set_option maxRecDepth 100000 in
theorem c3call2_pass1 :
    (seamOps 2 16 1 4).foldl (applySeamOp 2 16 1 (bgEstimate 2 16 c3e1)) c3e1
      = c3e2m := by
  decide

set_option maxRecDepth 100000 in
theorem c3call2_pass2 :
    (seamOps 2 16 1 4).foldl (applySeamOp 2 16 1 (bgEstimate 2 16 c3e1)) c3e2m
      = c3e2 := by
  decide

theorem c3call2 : removeGridLines str0 (Bitmap.mk 2 16 c3e1) 1 4 = Bitmap.mk 2 16 c3e2 := by
  show Bitmap.mk 2 16
    ((seamOps 2 16 1 4 ++ seamOps 2 16 1 4).foldl
      (applySeamOp 2 16 1 (bgEstimate 2 16 c3e1)) c3e1) = Bitmap.mk 2 16 c3e2
  rw [List.foldl_append, c3call2_pass1, c3call2_pass2]

set_option maxRecDepth 100000 in
theorem c3call3_pass1 :
    (seamOps 2 16 1 4).foldl (applySeamOp 2 16 1 (bgEstimate 2 16 c3e2)) c3e2
      = c3e3m := by
  decide

set_option maxRecDepth 100000 in
theorem c3call3_pass2 :
    (seamOps 2 16 1 4).foldl (applySeamOp 2 16 1 (bgEstimate 2 16 c3e2)) c3e3m
      = c3e3 := by
  decide

theorem c3call3 : removeGridLines str0 (Bitmap.mk 2 16 c3e2) 1 4 = Bitmap.mk 2 16 c3e3 := by
  show Bitmap.mk 2 16
    ((seamOps 2 16 1 4 ++ seamOps 2 16 1 4).foldl
      (applySeamOp 2 16 1 (bgEstimate 2 16 c3e2)) c3e2) = Bitmap.mk 2 16 c3e3
  rw [List.foldl_append, c3call3_pass1, c3call3_pass2]

/-- C3 counterexample: the output of `removeGridLines` is not a fixed point
of `removeGridLines`.  The bitmap `eraseSeams(c3w)` is a result of the seam
eraser (hence seam-free by the component's own contract), yet applying
`eraseSeams` to it twice differs from applying it once: one pixel changes
from gray 134 to gray 133. -/
theorem eraseSeams_not_idempotent :
    removeGridLines str0 (removeGridLines str0 (removeGridLines str0 c3w 1 4) 1 4) 1 4 ≠
      removeGridLines str0 (removeGridLines str0 c3w 1 4) 1 4 := by
  rw [c3call1, c3call2, c3call3]
  decide

/-- C3 amended: for every bitmap that one application of `eraseSeams`
leaves unchanged, a further application of `eraseSeams` to its output is a
no-op, so the claimed idempotence equation holds for such inputs. -/
theorem eraseSeams_idempotent_of_fixed (stretch : Bitmap → Nat → Nat → List Nat)
    (img : Bitmap) (cw ch : Nat) (h : removeGridLines stretch img cw ch = img) :
    removeGridLines stretch (removeGridLines stretch img cw ch) cw ch =
      removeGridLines stretch img cw ch := by
  rw [h]
  exact h

set_option maxRecDepth 40000 in
/-- Witness for the amended C3 at a concrete fixed point: the all-white
2x4 bitmap with cell size 1x1. -/
theorem eraseSeams_idempotent_of_fixed_witness :
    removeGridLines str0 (removeGridLines str0 white24 1 1) 1 1 =
      removeGridLines str0 white24 1 1 :=
  eraseSeams_idempotent_of_fixed str0 white24 1 1 (by decide)

theorem mem_coordsList (w h : Nat) (p : Nat × Nat) :
    p ∈ coordsList w h ↔ p.1 < w ∧ p.2 < h := by
  cases p with
  | mk x y =>
    simp only [coordsList, List.mem_flatMap, List.mem_map, List.mem_range, Prod.mk.injEq]
    constructor
    · rintro ⟨y0, hy0, x0, hx0, hx, hy⟩
      subst hx; subst hy; exact ⟨hx0, hy0⟩
    · rintro ⟨hx, hy⟩
      exact ⟨y, hy, x, hx, rfl, rfl⟩

theorem foldl_no_seed (img : Bitmap) (t : Int) :
    ∀ (L : List (Nat × Nat)) (st : FloodState),
      (∀ p ∈ L, (isBorder img.width img.height p.1 p.2 && brightPix img t p.1 p.2) = false) →
      L.foldl (seedStep img t) st = st := by
  intro L
  induction L with
  | nil => intro st _; rfl
  | cons p rest ih =>
    intro st h
    rw [List.foldl_cons]
    have hp : seedStep img t st p = st := by
      unfold seedStep
      rw [h p (List.mem_cons_self p rest)]
      rfl
    rw [hp]
    exact ih st (fun q hq => h q (List.mem_cons_of_mem p hq))

theorem bfsRun_nil (img : Bitmap) (t : Int) (fuel : Nat) (st : FloodState)
    (h : st.queue = []) : bfsRun img t fuel st = st := by
  cases fuel with
  | zero => rfl
  | succ f =>
    unfold bfsRun
    rw [h]

theorem applyData_false (rm : Nat → Bool) (h : ∀ i, rm i = false) :
    ∀ (n : Nat) (l : List Nat), applyData rm n l = l := by
  intro n l
  induction l generalizing n with
  | nil => rfl
  | cons b rest ih =>
    unfold applyData
    rw [h, ih]
    simp

/-- C4: when every border pixel has channel average at most the threshold,
the flood fill seeds nothing and `removeBackgroundSimple` returns the
bitmap unchanged (in particular every alpha byte is unchanged). -/
theorem removeBackground_id_of_dim_border (img : Bitmap) (t : Int)
    (h : ∀ x, x < img.width → ∀ y, y < img.height →
      isBorder img.width img.height x y = true → (pixSum img x y : Int) ≤ 3 * t) :
    removeBackgroundSimple img t none = Except.ok img := by
  have hseed : seedState img t =
      { toRemove := fun _ => false, visited := fun _ => false, queue := [] } := by
    unfold seedState
    apply foldl_no_seed
    intro p hp
    have hb := (mem_coordsList img.width img.height p).mp hp
    by_cases hbord : isBorder img.width img.height p.1 p.2 = true
    · have : brightPix img t p.1 p.2 = false := by
        unfold brightPix
        simp only [decide_eq_false_iff_not, not_lt]
        exact h p.1 hb.1 p.2 hb.2 hbord
      rw [this, Bool.and_false]
    · rw [Bool.eq_false_iff.mpr hbord, Bool.false_and]
  have hrm : ∀ i, floodRemove img t i = false := by
    intro i
    unfold floodRemove
    rw [hseed, bfsRun_nil _ _ _ _ rfl]
  show Except.ok (floodApply img t) = Except.ok img
  unfold floodApply
  rw [applyData_false _ hrm]

/-- Witness for C4: a 3x3 all-black bitmap at the default threshold 240. -/
theorem removeBackground_id_of_dim_border_witness :
    removeBackgroundSimple black3 240 none = Except.ok black3 :=
  removeBackground_id_of_dim_border black3 240 (by decide)

theorem getD_le_of_bytes (l : List Nat) (hb : ∀ b ∈ l, b ≤ 255) :
    ∀ i, l.getD i 0 ≤ 255 := by
  induction l with
  | nil => intro i; cases i <;> simp [List.getD]
  | cons a rest ih =>
    intro i
    cases i with
    | zero => exact hb a (List.mem_cons_self a rest)
    | succ j =>
      exact ih (fun b hbm => hb b (List.mem_cons_of_mem a hbm)) j

theorem brightPix_false_of_ge (img : Bitmap) (t : Int) (hv : validBytes img)
    (ht : 255 ≤ t) (x y : Nat) : brightPix img t x y = false := by
  unfold brightPix
  simp only [decide_eq_false_iff_not, not_lt]
  have h0 := getD_le_of_bytes img.data hv ((y * img.width + x) * 4)
  have h1 := getD_le_of_bytes img.data hv ((y * img.width + x) * 4 + 1)
  have h2 := getD_le_of_bytes img.data hv ((y * img.width + x) * 4 + 2)
  unfold pixSum byteAt
  push_cast
  omega

theorem seedState_congr (img : Bitmap) (t1 t2 : Int)
    (hb : ∀ x y, brightPix img t1 x y = brightPix img t2 x y) :
    seedState img t1 = seedState img t2 := by
  unfold seedState
  apply foldl_fun_congr
  intro st p
  unfold seedStep
  rw [hb]

theorem bfsStep_congr (img : Bitmap) (t1 t2 : Int)
    (hb : ∀ x y, brightPix img t1 x y = brightPix img t2 x y) (st : FloodState) :
    bfsStep img t1 st = bfsStep img t2 st := by
  unfold bfsStep
  cases st.queue with
  | nil => rfl
  | cons p rest =>
    apply foldl_fun_congr
    intro s d
    simp only [visitDir, hb]

theorem bfsRun_congr (img : Bitmap) (t1 t2 : Int)
    (hb : ∀ x y, brightPix img t1 x y = brightPix img t2 x y) :
    ∀ (fuel : Nat) (st : FloodState), bfsRun img t1 fuel st = bfsRun img t2 fuel st := by
  intro fuel
  induction fuel with
  | zero => intro st; rfl
  | succ f ih =>
    intro st
    unfold bfsRun
    cases hq : st.queue with
    | nil => rfl
    | cons p rest =>
      rw [bfsStep_congr img t1 t2 hb st, ih]

theorem removeBackground_congr (img : Bitmap) (t1 t2 : Int) (mask : Option (List Nat))
    (hb : ∀ x y, brightPix img t1 x y = brightPix img t2 x y) :
    removeBackgroundSimple img t1 mask = removeBackgroundSimple img t2 mask := by
  have hseed := seedState_congr img t1 t2 hb
  have hfuel : floodFuel img t1 = floodFuel img t2 := by
    unfold floodFuel
    rw [hseed]
  have hrm : floodRemove img t1 = floodRemove img t2 := by
    unfold floodRemove
    rw [hseed, hfuel, bfsRun_congr img t1 t2 hb]
  have happ : floodApply img t1 = floodApply img t2 := by
    unfold floodApply
    rw [hrm]
  unfold removeBackgroundSimple
  rw [happ]

/-- C7 amended: `removeBackgroundSimple` performs no clamping and completes
normally for every integer threshold; any threshold at or above 255 gives
the same result as threshold 255 (no byte sum can exceed it), but a
negative threshold is genuinely more aggressive than threshold 0, as the
counterexample shows. -/
theorem removeBackground_threshold_above (img : Bitmap) (t : Int)
    (mask : Option (List Nat)) (hv : validBytes img) (ht : 255 ≤ t) :
    removeBackgroundSimple img t mask = removeBackgroundSimple img 255 mask := by
  apply removeBackground_congr
  intro x y
  rw [brightPix_false_of_ge img t hv ht, brightPix_false_of_ge img 255 hv (by omega)]

/-- Witness for the amended C7: a 1x1 black bitmap at the out-of-range
threshold 300. -/
theorem removeBackground_threshold_above_witness :
    removeBackgroundSimple black1 300 none = removeBackgroundSimple black1 255 none :=
  removeBackground_threshold_above black1 300 none (by unfold validBytes; decide) (by decide)

theorem getD_set_ne (a : Nat) :
    ∀ (l : List Nat) (i j : Nat), i ≠ j → (l.set i a).getD j 0 = l.getD j 0 := by
  intro l
  induction l with
  | nil => intro i j _; rfl
  | cons b rest ih =>
    intro i j hne
    cases i with
    | zero =>
      cases j with
      | zero => exact absurd rfl hne
      | succ j0 => rfl
    | succ i0 =>
      cases j with
      | zero => rfl
      | succ j0 => exact ih i0 j0 (fun hc => hne (by rw [hc]))

theorem getD_set3_ne (l : List Nat) (i r g b j : Nat)
    (h0 : j ≠ i) (h1 : j ≠ i + 1) (h2 : j ≠ i + 2) :
    (set3 l i r g b).getD j 0 = l.getD j 0 := by
  unfold set3
  rw [getD_set_ne b _ _ _ (Ne.symm h2), getD_set_ne g _ _ _ (Ne.symm h1),
    getD_set_ne r _ _ _ (Ne.symm h0)]

theorem smoothV_getD_ne (w : Nat) (bg : BgEst) (data : List Nat) (x y : Nat) (off : Int)
    (j : Nat) (h0 : j ≠ (y * w + x) * 4) (h1 : j ≠ (y * w + x) * 4 + 1)
    (h2 : j ≠ (y * w + x) * 4 + 2) :
    (smoothV w bg data x y off).getD j 0 = data.getD j 0 := by
  simp only [smoothV]
  split
  · exact getD_set3_ne _ _ _ _ _ _ h0 h1 h2
  · split
    · exact getD_set3_ne _ _ _ _ _ _ h0 h1 h2
    · rfl

theorem smoothH_getD_ne (w h : Nat) (bg : BgEst) (data : List Nat) (x y : Nat) (off : Int)
    (j : Nat) (h0 : j ≠ (y * w + x) * 4) (h1 : j ≠ (y * w + x) * 4 + 1)
    (h2 : j ≠ (y * w + x) * 4 + 2) :
    (smoothH w h bg data x y off).getD j 0 = data.getD j 0 := by
  simp only [smoothH]
  split
  · exact getD_set3_ne _ _ _ _ _ _ h0 h1 h2
  · split
    · exact getD_set3_ne _ _ _ _ _ _ h0 h1 h2
    · rfl

theorem pixIdx_inj (w x1 y1 x2 y2 : Nat) (hx1 : x1 < w) (hx2 : x2 < w)
    (h : y1 * w + x1 = y2 * w + x2) : x1 = x2 ∧ y1 = y2 := by
  have hm1 : (y1 * w + x1) % w = x1 := by
    rw [Nat.add_comm, Nat.add_mul_mod_self_right]
    exact Nat.mod_eq_of_lt hx1
  have hm2 : (y2 * w + x2) % w = x2 := by
    rw [Nat.add_comm, Nat.add_mul_mod_self_right]
    exact Nat.mod_eq_of_lt hx2
  have hx : x1 = x2 := by rw [← hm1, ← hm2, h]
  have hmul : y1 * w = y2 * w := by omega
  have hw0 : 0 < w := Nat.lt_of_le_of_lt (Nat.zero_le x1) hx1
  exact ⟨hx, Nat.eq_of_mul_eq_mul_right hw0 hmul⟩

theorem pix_byte_ne (w x1 y1 x2 y2 c1 c2 : Nat) (hx1 : x1 < w) (hx2 : x2 < w)
    (hc1 : c1 < 4) (hc2 : c2 < 4) (hne : x1 ≠ x2 ∨ y1 ≠ y2) :
    (y1 * w + x1) * 4 + c1 ≠ (y2 * w + x2) * 4 + c2 := by
  intro heq
  have hAB : y1 * w + x1 = y2 * w + x2 := by omega
  have hxy := pixIdx_inj w x1 y1 x2 y2 hx1 hx2 hAB
  rcases hne with hne | hne
  · exact hne hxy.1
  · exact hne hxy.2

theorem mem_offsets (o : Int) (ho : o ∈ offsets) : o.natAbs ≤ 5 := by
  have hoff : offsets = [-5, -4, -3, -2, -1, 0, 1, 2, 3, 4, 5] := by decide
  rw [hoff] at ho
  fin_cases ho <;> decide

theorem seamOps_mem (w h cw ch : Nat) (op : SeamOp) (hop : op ∈ seamOps w h cw ch) :
    (∃ y0 o, op = SeamOp.v y0 o ∧ o.natAbs ≤ 5) ∨
    (∃ ly o x0, op = SeamOp.hz ly o x0 ∧ (ly = ch ∨ ly = 2 * ch ∨ ly = 3 * ch) ∧
      o.natAbs ≤ 5 ∧ x0 < w) := by
  unfold seamOps at hop
  rw [List.mem_append] at hop
  rcases hop with hv | hh0
  · left
    simp only [List.mem_flatMap, List.mem_map, List.mem_range] at hv
    obtain ⟨y0, hy0, o, ho, heq⟩ := hv
    exact ⟨y0, o, heq.symm, mem_offsets o ho⟩
  · right
    simp only [List.mem_flatMap, List.mem_map, List.mem_range, List.mem_cons,
      List.mem_singleton] at hh0
    obtain ⟨ly, hly, o, ho, x0, hx0, heq⟩ := hh0
    refine ⟨ly, o, x0, heq.symm, ?_, mem_offsets o ho, hx0⟩
    rcases hly with h1 | h2 | h3 | hf
    · exact Or.inl h1
    · exact Or.inr (Or.inl h2)
    · exact Or.inr (Or.inr h3)
    · exact absurd hf (List.not_mem_nil ly)

theorem applySeamOp_getD_outside (w h cw ch : Nat) (bg : BgEst) (data : List Nat)
    (op : SeamOp) (x y c : Nat) (hx : x < w) (hc : c < 4)
    (hshape : (∃ y0 o, op = SeamOp.v y0 o ∧ o.natAbs ≤ 5) ∨
      (∃ ly o x0, op = SeamOp.hz ly o x0 ∧ (ly = ch ∨ ly = 2 * ch ∨ ly = 3 * ch) ∧
        o.natAbs ≤ 5 ∧ x0 < w))
    (hbx : 5 < ((x : Int) - (cw : Int)).natAbs)
    (hy1 : 5 < ((y : Int) - (ch : Int)).natAbs)
    (hy2 : 5 < ((y : Int) - ((2 * ch : Nat) : Int)).natAbs)
    (hy3 : 5 < ((y : Int) - ((3 * ch : Nat) : Int)).natAbs) :
    (applySeamOp w h cw bg data op).getD ((y * w + x) * 4 + c) 0 =
      data.getD ((y * w + x) * 4 + c) 0 := by
  rcases hshape with ⟨y0, o, rfl, ho⟩ | ⟨ly, o, x0, rfl, hly, ho, hx0⟩
  · simp only [applySeamOp]
    split
    · rename_i hguard
      obtain ⟨hg1, hg2⟩ := hguard
      have hxs : ((cw : Int) + o).toNat < w := by omega
      have hxne : ((cw : Int) + o).toNat ≠ x := by omega
      apply smoothV_getD_ne
      · exact pix_byte_ne w x y _ y0 c 0 hx hxs hc (by omega) (Or.inl (fun he => hxne he.symm))
      · exact pix_byte_ne w x y _ y0 c 1 hx hxs hc (by omega) (Or.inl (fun he => hxne he.symm))
      · exact pix_byte_ne w x y _ y0 c 2 hx hxs hc (by omega) (Or.inl (fun he => hxne he.symm))
    · rfl
  · simp only [applySeamOp]
    split
    · rename_i hguard
      have hyne : ((ly : Int) + o).toNat ≠ y := by
        rcases hly with rfl | rfl | rfl <;> omega
      apply smoothH_getD_ne
      · exact pix_byte_ne w x y x0 _ c 0 hx hx0 hc (by omega) (Or.inr (fun he => hyne he.symm))
      · exact pix_byte_ne w x y x0 _ c 1 hx hx0 hc (by omega) (Or.inr (fun he => hyne he.symm))
      · exact pix_byte_ne w x y x0 _ c 2 hx hx0 hc (by omega) (Or.inr (fun he => hyne he.symm))
    · rfl

theorem foldl_seamOps_getD (w h cw ch : Nat) (bg : BgEst) (x y c : Nat)
    (hx : x < w) (hc : c < 4)
    (hbx : 5 < ((x : Int) - (cw : Int)).natAbs)
    (hy1 : 5 < ((y : Int) - (ch : Int)).natAbs)
    (hy2 : 5 < ((y : Int) - ((2 * ch : Nat) : Int)).natAbs)
    (hy3 : 5 < ((y : Int) - ((3 * ch : Nat) : Int)).natAbs) :
    ∀ (L : List SeamOp),
      (∀ op ∈ L, (∃ y0 o, op = SeamOp.v y0 o ∧ o.natAbs ≤ 5) ∨
        (∃ ly o x0, op = SeamOp.hz ly o x0 ∧ (ly = ch ∨ ly = 2 * ch ∨ ly = 3 * ch) ∧
          o.natAbs ≤ 5 ∧ x0 < w)) →
      ∀ data : List Nat,
        (L.foldl (applySeamOp w h cw bg) data).getD ((y * w + x) * 4 + c) 0 =
          data.getD ((y * w + x) * 4 + c) 0 := by
  intro L
  induction L with
  | nil => intro _ data; rfl
  | cons op rest ih =>
    intro hmem data
    rw [List.foldl_cons]
    rw [ih (fun q hq => hmem q (List.mem_cons_of_mem op hq)) (applySeamOp w h cw bg data op)]
    exact applySeamOp_getD_outside w h cw ch bg data op x y c hx hc
      (hmem op (List.mem_cons_self op rest)) hbx hy1 hy2 hy3

/-- C9: frame property of the seam eraser.  On a bitmap already of the
expected `2*cellWidth x 4*cellHeight` size, any pixel strictly more than 5
columns from the vertical seam `x = cellWidth` and strictly more than 5
rows from each horizontal seam `y = cellHeight, 2*cellHeight, 3*cellHeight`
keeps all four of its RGBA bytes unchanged: only pixels inside the plus or
minus 5 seam bands are ever written. -/
theorem seam_eraser_frame (stretch : Bitmap → Nat → Nat → List Nat) (img : Bitmap)
    (cw ch x y c : Nat)
    (hw : img.width = 2 * cw) (hh : img.height = 4 * ch)
    (hx : x < 2 * cw) (hc : c < 4)
    (hbx : 5 < ((x : Int) - (cw : Int)).natAbs)
    (hy1 : 5 < ((y : Int) - (ch : Int)).natAbs)
    (hy2 : 5 < ((y : Int) - ((2 * ch : Nat) : Int)).natAbs)
    (hy3 : 5 < ((y : Int) - ((3 * ch : Nat) : Int)).natAbs) :
    (removeGridLines stretch img cw ch).data.getD ((y * (2 * cw) + x) * 4 + c) 0 =
      img.data.getD ((y * (2 * cw) + x) * 4 + c) 0 := by
  simp only [removeGridLines]
  rw [if_pos (show img.width = 2 * cw ∧ img.height = 4 * ch from ⟨hw, hh⟩)]
  simp only [gridCore]
  apply foldl_seamOps_getD (2 * cw) (4 * ch) cw ch _ x y c hx hc hbx hy1 hy2 hy3
  intro op hop
  rw [List.mem_append] at hop
  rcases hop with hop | hop
  · exact seamOps_mem (2 * cw) (4 * ch) cw ch op hop
  · exact seamOps_mem (2 * cw) (4 * ch) cw ch op hop

/-- Witness for C9: the top-left pixel of a 12x24 bitmap with cell size
6x6 lies outside every seam band and keeps its red byte. -/
theorem seam_eraser_frame_witness :
    (removeGridLines str0 gray1224 6 6).data.getD ((0 * (2 * 6) + 0) * 4 + 0) 0 =
      gray1224.data.getD ((0 * (2 * 6) + 0) * 4 + 0) 0 :=
  seam_eraser_frame str0 gray1224 6 6 0 0 0 (by decide) (by decide) (by decide)
    (by decide) (by decide) (by decide) (by decide) (by decide)

theorem setTrue_iff (f : Nat → Bool) (i j : Nat) :
    setTrue f i j = true ↔ j = i ∨ f j = true := by
  unfold setTrue
  by_cases h : j = i
  · simp [h]
  · simp [h]

theorem setTrue_self (f : Nat → Bool) (i : Nat) : setTrue f i i = true := by
  simp [setTrue]

theorem setTrue_mono (f : Nat → Bool) (i j : Nat) (h : f j = true) :
    setTrue f i j = true := (setTrue_iff f i j).mpr (Or.inr h)

theorem seed_foldl_queue (img : Bitmap) (t : Int) :
    ∀ (L : List (Nat × Nat)) (st : FloodState),
      (L.foldl (seedStep img t) st).queue =
        st.queue ++ L.filter
          (fun p => isBorder img.width img.height p.1 p.2 && brightPix img t p.1 p.2) := by
  intro L
  induction L with
  | nil => intro st; simp
  | cons p rest ih =>
    intro st
    rw [List.foldl_cons, ih]
    unfold seedStep
    by_cases hc : (isBorder img.width img.height p.1 p.2 && brightPix img t p.1 p.2) = true
    · rw [if_pos hc]
      have hcf := hc
      simp [List.filter_cons, hc]
    · rw [if_neg hc]
      have hcf : (isBorder img.width img.height p.1 p.2 && brightPix img t p.1 p.2) = false :=
        Bool.eq_false_iff.mpr hc
      simp [List.filter_cons, hcf]

theorem seed_foldl_rm (img : Bitmap) (t : Int) :
    ∀ (L : List (Nat × Nat)) (st : FloodState) (i : Nat),
      ((L.foldl (seedStep img t) st).toRemove i = true ↔
        st.toRemove i = true ∨ ∃ p ∈ L,
          (isBorder img.width img.height p.1 p.2 && brightPix img t p.1 p.2) = true ∧
          pixIdx img.width p = i) := by
  intro L
  induction L with
  | nil => intro st i; simp
  | cons p rest ih =>
    intro st i
    rw [List.foldl_cons]
    rw [ih]
    unfold seedStep
    by_cases hc : (isBorder img.width img.height p.1 p.2 && brightPix img t p.1 p.2) = true
    · rw [if_pos hc]
      constructor
      · rintro (hset | hex)
        · rcases (setTrue_iff _ _ _).mp hset with rfl | hold
          · exact Or.inr ⟨p, List.mem_cons_self p rest, hc, rfl⟩
          · exact Or.inl hold
        · obtain ⟨q, hq, hqc, hqi⟩ := hex
          exact Or.inr ⟨q, List.mem_cons_of_mem p hq, hqc, hqi⟩
      · rintro (hold | ⟨q, hq, hqc, hqi⟩)
        · exact Or.inl (setTrue_mono _ _ _ hold)
        · rcases List.mem_cons.mp hq with rfl | hmem
          · exact Or.inl (by rw [← hqi]; exact setTrue_self _ _)
          · exact Or.inr ⟨q, hmem, hqc, hqi⟩
    · rw [if_neg hc]
      constructor
      · rintro (hold | ⟨q, hq, hqc, hqi⟩)
        · exact Or.inl hold
        · exact Or.inr ⟨q, List.mem_cons_of_mem p hq, hqc, hqi⟩
      · rintro (hold | ⟨q, hq, hqc, hqi⟩)
        · exact Or.inl hold
        · rcases List.mem_cons.mp hq with rfl | hmem
          · exact absurd hqc hc
          · exact Or.inr ⟨q, hmem, hqc, hqi⟩

theorem seed_foldl_visited (img : Bitmap) (t : Int) :
    ∀ (L : List (Nat × Nat)) (st : FloodState) (i : Nat),
      ((L.foldl (seedStep img t) st).visited i = true ↔
        st.visited i = true ∨ ∃ p ∈ L,
          (isBorder img.width img.height p.1 p.2 && brightPix img t p.1 p.2) = true ∧
          pixIdx img.width p = i) := by
  intro L
  induction L with
  | nil => intro st i; simp
  | cons p rest ih =>
    intro st i
    rw [List.foldl_cons]
    rw [ih]
    unfold seedStep
    by_cases hc : (isBorder img.width img.height p.1 p.2 && brightPix img t p.1 p.2) = true
    · rw [if_pos hc]
      constructor
      · rintro (hset | hex)
        · rcases (setTrue_iff _ _ _).mp hset with rfl | hold
          · exact Or.inr ⟨p, List.mem_cons_self p rest, hc, rfl⟩
          · exact Or.inl hold
        · obtain ⟨q, hq, hqc, hqi⟩ := hex
          exact Or.inr ⟨q, List.mem_cons_of_mem p hq, hqc, hqi⟩
      · rintro (hold | ⟨q, hq, hqc, hqi⟩)
        · exact Or.inl (setTrue_mono _ _ _ hold)
        · rcases List.mem_cons.mp hq with rfl | hmem
          · exact Or.inl (by rw [← hqi]; exact setTrue_self _ _)
          · exact Or.inr ⟨q, hmem, hqc, hqi⟩
    · rw [if_neg hc]
      constructor
      · rintro (hold | ⟨q, hq, hqc, hqi⟩)
        · exact Or.inl hold
        · exact Or.inr ⟨q, List.mem_cons_of_mem p hq, hqc, hqi⟩
      · rintro (hold | ⟨q, hq, hqc, hqi⟩)
        · exact Or.inl hold
        · rcases List.mem_cons.mp hq with rfl | hmem
          · exact absurd hqc hc
          · exact Or.inr ⟨q, hmem, hqc, hqi⟩

theorem isBorder_iff (w h x y : Nat) :
    isBorder w h x y = true ↔ (x = 0 ∨ x = w - 1 ∨ y = 0 ∨ y = h - 1) := by
  unfold isBorder
  exact decide_eq_true_iff

theorem seedState_rm_iff (img : Bitmap) (t : Int) (i : Nat) :
    (seedState img t).toRemove i = true ↔
      ∃ p, inBoundsP img.width img.height p ∧
        (isBorder img.width img.height p.1 p.2 && brightPix img t p.1 p.2) = true ∧
        pixIdx img.width p = i := by
  unfold seedState
  rw [seed_foldl_rm]
  constructor
  · rintro (hfalse | ⟨p, hp, hc, hi⟩)
    · exact absurd hfalse (by simp)
    · exact ⟨p, (mem_coordsList _ _ p).mp hp, hc, hi⟩
  · rintro ⟨p, hp, hc, hi⟩
    exact Or.inr ⟨p, (mem_coordsList _ _ p).mpr hp, hc, hi⟩

theorem seedState_visited_iff (img : Bitmap) (t : Int) (i : Nat) :
    (seedState img t).visited i = true ↔
      ∃ p, inBoundsP img.width img.height p ∧
        (isBorder img.width img.height p.1 p.2 && brightPix img t p.1 p.2) = true ∧
        pixIdx img.width p = i := by
  unfold seedState
  rw [seed_foldl_visited]
  constructor
  · rintro (hfalse | ⟨p, hp, hc, hi⟩)
    · exact absurd hfalse (by simp)
    · exact ⟨p, (mem_coordsList _ _ p).mp hp, hc, hi⟩
  · rintro ⟨p, hp, hc, hi⟩
    exact Or.inr ⟨p, (mem_coordsList _ _ p).mpr hp, hc, hi⟩

theorem seedState_queue_mem (img : Bitmap) (t : Int) (p : Nat × Nat) :
    p ∈ (seedState img t).queue ↔
      inBoundsP img.width img.height p ∧
      (isBorder img.width img.height p.1 p.2 && brightPix img t p.1 p.2) = true := by
  unfold seedState
  rw [seed_foldl_queue]
  simp only [List.nil_append, List.mem_filter, mem_coordsList]
  exact Iff.rfl

theorem borderP_cond (img : Bitmap) (t : Int) (p : Nat × Nat)
    (hb : borderP img.width img.height p) (hbr : brightPix img t p.1 p.2 = true) :
    (isBorder img.width img.height p.1 p.2 && brightPix img t p.1 p.2) = true := by
  rw [Bool.and_eq_true]
  exact ⟨(isBorder_iff _ _ _ _).mpr hb.2, hbr⟩

theorem pixIdx_inj_pair (w : Nat) (p q : Nat × Nat) (hp : p.1 < w) (hq : q.1 < w)
    (h : pixIdx w p = pixIdx w q) : p = q := by
  have := pixIdx_inj w p.1 p.2 q.1 q.2 hp hq h
  cases p; cases q
  simp only [Prod.mk.injEq]
  exact ⟨this.1, this.2⟩

theorem seedState_inv (img : Bitmap) (t : Int) : FloodInv img t (seedState img t) := by
  constructor
  · intro p hp hrm
    obtain ⟨q, hq, hqc, hqi⟩ := (seedState_rm_iff img t _).mp hrm
    have hpq : q = p := pixIdx_inj_pair img.width q p hq.1 hp.1 hqi
    subst hpq
    rw [Bool.and_eq_true] at hqc
    have hbord : borderP img.width img.height q := ⟨hq, (isBorder_iff _ _ _ _).mp hqc.1⟩
    exact ⟨hqc.2, q, hbord, hqc.2, Relation.ReflTransGen.refl⟩
  · intro p hp
    have hmem := (seedState_queue_mem img t p).mp hp
    exact ⟨hmem.1, (seedState_rm_iff img t _).mpr ⟨p, hmem.1, hmem.2, rfl⟩⟩
  · intro p hp hv _
    obtain ⟨q, hq, hqc, hqi⟩ := (seedState_visited_iff img t _).mp hv
    exact (seedState_rm_iff img t _).mpr ⟨q, hq, hqc, hqi⟩
  · intro p hp hrm
    obtain ⟨q, hq, hqc, hqi⟩ := (seedState_rm_iff img t _).mp hrm
    have hpq : q = p := pixIdx_inj_pair img.width q p hq.1 hp.1 hqi
    subst hpq
    exact Or.inl ((seedState_queue_mem img t q).mpr ⟨hq, hqc⟩)
  · intro p hb hbr
    exact (seedState_rm_iff img t _).mpr ⟨p, hb.1, borderP_cond img t p hb hbr, rfl⟩

theorem target_adjacent (w h : Nat) (p : Nat × Nat) (d : Int × Int) (hd : d ∈ dirs)
    (hg : 0 ≤ (p.1 : Int) + d.1 ∧ (p.1 : Int) + d.1 < (w : Int) ∧
      0 ≤ (p.2 : Int) + d.2 ∧ (p.2 : Int) + d.2 < (h : Int)) :
    adjacentP p (((p.1 : Int) + d.1).toNat, ((p.2 : Int) + d.2).toNat) ∧
    inBoundsP w h (((p.1 : Int) + d.1).toNat, ((p.2 : Int) + d.2).toNat) := by
  fin_cases hd <;>
    (refine ⟨?_, ?_⟩ <;> simp only [adjacentP, inBoundsP] <;> omega)

theorem adjacent_covered (w h : Nat) (p q : Nat × Nat) (hq : inBoundsP w h q)
    (hadj : adjacentP p q) :
    ∃ d ∈ dirs, (0 ≤ (p.1 : Int) + d.1 ∧ (p.1 : Int) + d.1 < (w : Int) ∧
      0 ≤ (p.2 : Int) + d.2 ∧ (p.2 : Int) + d.2 < (h : Int)) ∧
      (((p.1 : Int) + d.1).toNat, ((p.2 : Int) + d.2).toNat) = q := by
  obtain ⟨hq1, hq2⟩ := hq
  rcases hadj with ⟨h1, h2⟩ | ⟨h1, h2⟩ | ⟨h1, h2⟩ | ⟨h1, h2⟩
  · refine ⟨(1, 0), by simp [dirs], by dsimp only; omega, ?_⟩
    have e1 : ((p.1 : Int) + 1).toNat = q.1 := by omega
    have e2 : ((p.2 : Int) + 0).toNat = q.2 := by omega
    rw [e1, e2]
  · refine ⟨(-1, 0), by simp [dirs], by dsimp only; omega, ?_⟩
    have e1 : ((p.1 : Int) + -1).toNat = q.1 := by omega
    have e2 : ((p.2 : Int) + 0).toNat = q.2 := by omega
    rw [e1, e2]
  · refine ⟨(0, 1), by simp [dirs], by dsimp only; omega, ?_⟩
    have e1 : ((p.1 : Int) + 0).toNat = q.1 := by omega
    have e2 : ((p.2 : Int) + 1).toNat = q.2 := by omega
    rw [e1, e2]
  · refine ⟨(0, -1), by simp [dirs], by dsimp only; omega, ?_⟩
    have e1 : ((p.1 : Int) + 0).toNat = q.1 := by omega
    have e2 : ((p.2 : Int) + -1).toNat = q.2 := by omega
    rw [e1, e2]

theorem visitDir_midinv (img : Bitmap) (t : Int) (p : Nat × Nat) (d : Int × Int)
    (hd : d ∈ dirs) (st : FloodState) (hinv : FloodMidInv img t p st) :
    FloodMidInv img t p (visitDir img t p.1 p.2 st d) := by
  simp only [visitDir]
  split
  next hg =>
    split
    next hv => exact hinv
    next hv =>
      have htarget := target_adjacent img.width img.height p d hd hg
      set q0 : Nat × Nat := (((p.1 : Int) + d.1).toNat, ((p.2 : Int) + d.2).toNat) with hq0
      have hidx : pixIdx img.width q0 =
          ((p.2 : Int) + d.2).toNat * img.width + ((p.1 : Int) + d.1).toNat := rfl
      split
      next hbr =>
        have hreach : reachableFromBorder img t q0 := by
          obtain ⟨hbrp, b, hb, hbb, hrtg⟩ := hinv.rm_sound p hinv.pop_rm.1 hinv.pop_rm.2
          exact ⟨b, hb, hbb, hrtg.tail ⟨htarget.1, htarget.2, hbr⟩⟩
        constructor
        · intro q hq hrm
          rcases (setTrue_iff _ _ _).mp hrm with heq | hold
          · have hqq : q = q0 := by
              apply pixIdx_inj_pair img.width q q0 hq.1 htarget.2.1
              rw [hidx]; exact heq
            subst hqq
            exact ⟨hbr, hreach⟩
          · exact hinv.rm_sound q hq hold
        · intro q hq
          rcases List.mem_append.mp hq with hql | hqr
          · obtain ⟨hqb, hqrm⟩ := hinv.queue_mem q hql
            exact ⟨hqb, setTrue_mono _ _ _ hqrm⟩
          · have hqq : q = q0 := List.mem_singleton.mp hqr
            subst hqq
            refine ⟨htarget.2, ?_⟩
            rw [hidx]
            exact setTrue_self _ _
        · intro q hq hvis hbrq
          rcases (setTrue_iff _ _ _).mp hvis with heq | hold
          · rw [heq]
            exact setTrue_self _ _
          · exact setTrue_mono _ _ _ (hinv.visited_bright q hq hold hbrq)
        · intro q hq hrm
          rcases (setTrue_iff _ _ _).mp hrm with heq | hold
          · left
            apply List.mem_append_right
            apply List.mem_singleton.mpr
            apply pixIdx_inj_pair img.width q q0 hq.1 htarget.2.1
            rw [hidx]; exact heq
          · rcases hinv.frontier2 q hq hold with hql | hqp | hall
            · exact Or.inl (List.mem_append_left _ hql)
            · exact Or.inr (Or.inl hqp)
            · exact Or.inr (Or.inr (fun r hr hadj => setTrue_mono _ _ _ (hall r hr hadj)))
        · intro q hb hbrq
          exact setTrue_mono _ _ _ (hinv.seeded q hb hbrq)
        · exact ⟨hinv.pop_rm.1, setTrue_mono _ _ _ hinv.pop_rm.2⟩
      next hbr =>
        constructor
        · exact hinv.rm_sound
        · exact hinv.queue_mem
        · intro q hq hvis hbrq
          rcases (setTrue_iff _ _ _).mp hvis with heq | hold
          · have hqq : q = q0 := by
              apply pixIdx_inj_pair img.width q q0 hq.1 htarget.2.1
              rw [hidx]; exact heq
            subst hqq
            exact absurd hbrq hbr
          · exact hinv.visited_bright q hq hold hbrq
        · intro q hq hrm
          rcases hinv.frontier2 q hq hrm with hql | hqp | hall
          · exact Or.inl hql
          · exact Or.inr (Or.inl hqp)
          · exact Or.inr (Or.inr (fun r hr hadj => setTrue_mono _ _ _ (hall r hr hadj)))
        · exact hinv.seeded
        · exact hinv.pop_rm
  next hg => exact hinv

theorem visitDir_visited_mono (img : Bitmap) (t : Int) (x y : Nat) (st : FloodState)
    (d : Int × Int) (i : Nat) (h : st.visited i = true) :
    (visitDir img t x y st d).visited i = true := by
  simp only [visitDir]
  split
  next hg =>
    split
    next hv => exact h
    next hv =>
      split
      next hbr => exact setTrue_mono _ _ _ h
      next hbr => exact setTrue_mono _ _ _ h
  next hg => exact h

theorem visitDir_visits (img : Bitmap) (t : Int) (p : Nat × Nat) (d : Int × Int)
    (st : FloodState)
    (hg : 0 ≤ (p.1 : Int) + d.1 ∧ (p.1 : Int) + d.1 < (img.width : Int) ∧
      0 ≤ (p.2 : Int) + d.2 ∧ (p.2 : Int) + d.2 < (img.height : Int)) :
    (visitDir img t p.1 p.2 st d).visited
      (((p.2 : Int) + d.2).toNat * img.width + ((p.1 : Int) + d.1).toNat) = true := by
  simp only [visitDir]
  rw [if_pos hg]
  split
  next hv => exact hv
  next hv =>
    split
    next hbr => exact setTrue_self _ _
    next hbr => exact setTrue_self _ _

theorem foldl_visitDir_midinv (img : Bitmap) (t : Int) (p : Nat × Nat) :
    ∀ (D : List (Int × Int)), (∀ d ∈ D, d ∈ dirs) → ∀ (st : FloodState),
      FloodMidInv img t p st →
      FloodMidInv img t p (D.foldl (visitDir img t p.1 p.2) st) := by
  intro D
  induction D with
  | nil => intro _ st h; exact h
  | cons d rest ih =>
    intro hD st h
    rw [List.foldl_cons]
    exact ih (fun e he => hD e (List.mem_cons_of_mem d he)) _
      (visitDir_midinv img t p d (hD d (List.mem_cons_self d rest)) st h)

theorem foldl_visitDir_visited_mono (img : Bitmap) (t : Int) (x y : Nat) :
    ∀ (D : List (Int × Int)) (st : FloodState) (i : Nat), st.visited i = true →
      ((D.foldl (visitDir img t x y) st).visited i = true) := by
  intro D
  induction D with
  | nil => intro st i h; exact h
  | cons d rest ih =>
    intro st i h
    rw [List.foldl_cons]
    exact ih _ i (visitDir_visited_mono img t x y st d i h)

theorem foldl_visitDir_visits (img : Bitmap) (t : Int) (p : Nat × Nat) :
    ∀ (D : List (Int × Int)) (st : FloodState) (d : Int × Int), d ∈ D →
      (0 ≤ (p.1 : Int) + d.1 ∧ (p.1 : Int) + d.1 < (img.width : Int) ∧
        0 ≤ (p.2 : Int) + d.2 ∧ (p.2 : Int) + d.2 < (img.height : Int)) →
      ((D.foldl (visitDir img t p.1 p.2) st).visited
        (((p.2 : Int) + d.2).toNat * img.width + ((p.1 : Int) + d.1).toNat) = true) := by
  intro D
  induction D with
  | nil => intro st d hd; exact absurd hd (List.not_mem_nil d)
  | cons d0 rest ih =>
    intro st d hd hg
    rw [List.foldl_cons]
    rcases List.mem_cons.mp hd with rfl | hmem
    · exact foldl_visitDir_visited_mono img t p.1 p.2 rest _ _
        (visitDir_visits img t p d st hg)
    · exact ih _ d hmem hg

theorem bfsStep_inv (img : Bitmap) (t : Int) (st : FloodState)
    (hinv : FloodInv img t st) : FloodInv img t (bfsStep img t st) := by
  unfold bfsStep
  cases hq : st.queue with
  | nil => exact hinv
  | cons p rest =>
    have hmid : FloodMidInv img t p { st with queue := rest } := by
      constructor
      · exact hinv.rm_sound
      · intro q hmem
        exact hinv.queue_mem q (by rw [hq]; exact List.mem_cons_of_mem p hmem)
      · exact hinv.visited_bright
      · intro q hqb hqrm
        rcases hinv.frontier q hqb hqrm with hql | hall
        · rw [hq] at hql
          rcases List.mem_cons.mp hql with rfl | hmem
          · exact Or.inr (Or.inl rfl)
          · exact Or.inl hmem
        · exact Or.inr (Or.inr hall)
      · exact hinv.seeded
      · exact hinv.queue_mem p (by rw [hq]; exact List.mem_cons_self p rest)
    have hend := foldl_visitDir_midinv img t p dirs (fun d hd => hd) _ hmid
    constructor
    · exact hend.rm_sound
    · exact hend.queue_mem
    · exact hend.visited_bright
    · intro q hqb hqrm
      rcases hend.frontier2 q hqb hqrm with hql | hqp | hall
      · exact Or.inl hql
      · subst hqp
        right
        intro r hr hadj
        obtain ⟨d, hd, hg, htgt⟩ := adjacent_covered img.width img.height q r hr hadj
        have := foldl_visitDir_visits img t q dirs { st with queue := rest } d hd hg
        rw [← htgt]
        exact this
      · exact Or.inr hall
    · exact hend.seeded

theorem pixIdx_lt (w h a b : Nat) (hb : b < w) (ha : a < h) : a * w + b < w * h := by
  calc a * w + b < a * w + w := by omega
  _ = (a + 1) * w := by ring
  _ ≤ h * w := Nat.mul_le_mul_right w (by omega)
  _ = w * h := Nat.mul_comm h w

theorem card_filter_setTrue (n i : Nat) (v : Nat → Bool) (hi : i < n) (hv : v i = false) :
    ((Finset.range n).filter (fun j => setTrue v i j = false)).card + 1 =
      ((Finset.range n).filter (fun j => v j = false)).card := by
  have hset : (Finset.range n).filter (fun j => setTrue v i j = false) =
      ((Finset.range n).filter (fun j => v j = false)).erase i := by
    ext j
    simp only [Finset.mem_filter, Finset.mem_erase, Finset.mem_range]
    unfold setTrue
    by_cases hj : j = i
    · subst hj
      simp
    · rw [if_neg hj]
      constructor
      · rintro ⟨hjn, hjv⟩
        exact ⟨hj, hjn, hjv⟩
      · rintro ⟨_, hjn, hjv⟩
        exact ⟨hjn, hjv⟩
  rw [hset]
  apply Finset.card_erase_add_one
  simp only [Finset.mem_filter, Finset.mem_range]
  exact ⟨hi, hv⟩

theorem measure_visitDir_le (img : Bitmap) (t : Int) (x y : Nat) (st : FloodState)
    (d : Int × Int) :
    floodMeasure img.width img.height (visitDir img t x y st d) ≤
      floodMeasure img.width img.height st := by
  simp only [visitDir]
  split
  next hg =>
    split
    next hv => exact Nat.le_refl _
    next hv =>
      have hvf : st.visited (((y : Int) + d.2).toNat * img.width + ((x : Int) + d.1).toNat)
          = false := Bool.eq_false_iff.mpr hv
      have hilt : ((y : Int) + d.2).toNat * img.width + ((x : Int) + d.1).toNat <
          img.width * img.height := by
        apply pixIdx_lt <;> omega
      have hcard := card_filter_setTrue (img.width * img.height) _ st.visited hilt hvf
      split
      next hbr =>
        unfold floodMeasure unvisitedCount
        dsimp only
        simp only [List.length_append, List.length_singleton]
        omega
      next hbr =>
        unfold floodMeasure unvisitedCount
        dsimp only
        omega
  next hg => exact Nat.le_refl _

theorem measure_foldl_le (img : Bitmap) (t : Int) (x y : Nat) :
    ∀ (D : List (Int × Int)) (st : FloodState),
      floodMeasure img.width img.height (D.foldl (visitDir img t x y) st) ≤
        floodMeasure img.width img.height st := by
  intro D
  induction D with
  | nil => intro st; exact Nat.le_refl _
  | cons d rest ih =>
    intro st
    rw [List.foldl_cons]
    exact Nat.le_trans (ih _) (measure_visitDir_le img t x y st d)

theorem measure_bfsStep_lt (img : Bitmap) (t : Int) (st : FloodState)
    (hne : st.queue ≠ []) :
    floodMeasure img.width img.height (bfsStep img t st) <
      floodMeasure img.width img.height st := by
  cases hq : st.queue with
  | nil => exact absurd hq hne
  | cons p rest =>
    have hstep : bfsStep img t st =
        dirs.foldl (visitDir img t p.1 p.2) { st with queue := rest } := by
      unfold bfsStep
      rw [hq]
    have hle := measure_foldl_le img t p.1 p.2 dirs { st with queue := rest }
    have hm1 : floodMeasure img.width img.height { st with queue := rest } + 1 =
        floodMeasure img.width img.height st := by
      unfold floodMeasure unvisitedCount
      rw [hq]
      simp only [List.length_cons]
      omega
    rw [hstep]
    omega

theorem bfs_empties (img : Bitmap) (t : Int) :
    ∀ (fuel : Nat) (st : FloodState),
      floodMeasure img.width img.height st ≤ fuel →
      (bfsRun img t fuel st).queue = [] := by
  intro fuel
  induction fuel with
  | zero =>
    intro st hm
    unfold floodMeasure at hm
    have : st.queue.length = 0 := by omega
    rw [bfsRun]
    exact List.length_eq_zero.mp this
  | succ f ih =>
    intro st hm
    rw [bfsRun]
    cases hq : st.queue with
    | nil => exact hq
    | cons p rest =>
      apply ih
      have := measure_bfsStep_lt img t st (by rw [hq]; exact List.cons_ne_nil p rest)
      omega

theorem bfs_run_inv (img : Bitmap) (t : Int) :
    ∀ (fuel : Nat) (st : FloodState), FloodInv img t st →
      FloodInv img t (bfsRun img t fuel st) := by
  intro fuel
  induction fuel with
  | zero => intro st h; exact h
  | succ f ih =>
    intro st h
    rw [bfsRun]
    cases hq : st.queue with
    | nil => exact h
    | cons p rest => exact ih _ (bfsStep_inv img t st h)

theorem seed_measure_le (img : Bitmap) (t : Int) :
    floodMeasure img.width img.height (seedState img t) ≤ floodFuel img t := by
  unfold floodMeasure floodFuel
  have hcard : unvisitedCount img.width img.height (seedState img t) ≤
      img.width * img.height := by
    unfold unvisitedCount
    calc ((Finset.range (img.width * img.height)).filter
        (fun i => (seedState img t).visited i = false)).card
        ≤ (Finset.range (img.width * img.height)).card := Finset.card_filter_le _ _
      _ = img.width * img.height := Finset.card_range _
  omega

/-- The flood fill of the background remover removes exactly the pixels
that exceed the threshold and are 4-connectedly reachable from an
above-threshold border pixel through above-threshold pixels. -/
theorem floodRemove_iff (img : Bitmap) (t : Int) (p : Nat × Nat)
    (hp : inBoundsP img.width img.height p) :
    (floodRemove img t (pixIdx img.width p) = true ↔
      brightPix img t p.1 p.2 = true ∧ reachableFromBorder img t p) := by
  unfold floodRemove
  have hinv := bfs_run_inv img t (floodFuel img t) (seedState img t) (seedState_inv img t)
  have hqe := bfs_empties img t (floodFuel img t) (seedState img t) (seed_measure_le img t)
  constructor
  · intro hrm
    exact hinv.rm_sound p hp hrm
  · rintro ⟨hbr, b, hbord, hbb, hrtg⟩
    have haux : ∀ q, Relation.ReflTransGen (floodStepP img t) b q →
        inBoundsP img.width img.height q ∧
        (bfsRun img t (floodFuel img t) (seedState img t)).toRemove
          (pixIdx img.width q) = true := by
      intro q hq
      induction hq with
      | refl => exact ⟨hbord.1, hinv.seeded b hbord hbb⟩
      | tail huv hstep ih =>
        obtain ⟨hadj, hv, hbrv⟩ := hstep
        refine ⟨hv, ?_⟩
        rcases hinv.frontier _ ih.1 ih.2 with hql | hall
        · rw [hqe] at hql
          exact absurd hql (List.not_mem_nil _)
        · exact hinv.visited_bright _ hv (hall _ hv hadj) hbrv
    exact (haux p hrtg).2

theorem applyData_getD_hit (rm : Nat → Bool) :
    ∀ (l : List Nat) (n j : Nat), (n + j) % 4 = 3 → rm ((n + j) / 4) = true →
      (applyData rm n l).getD j 0 = 0 := by
  intro l
  induction l with
  | nil => intro n j _ _; rfl
  | cons b rest ih =>
    intro n j hmod hrm
    cases j with
    | zero =>
      have hm : n % 4 == 3 := by
        simp only [Nat.add_zero] at hmod
        simp [hmod]
      have hr : rm (n / 4) = true := by
        simpa using hrm
      show (if (n % 4 == 3 && rm (n / 4)) = true then 0 else b) = 0
      rw [if_pos (by rw [Bool.and_eq_true]; exact ⟨hm, hr⟩)]
    | succ j0 =>
      show (applyData rm (n + 1) rest).getD j0 0 = 0
      apply ih
      · omega
      · have harith : n + 1 + j0 = n + (j0 + 1) := by omega
        rw [harith]
        exact hrm

theorem applyData_getD_miss (rm : Nat → Bool) :
    ∀ (l : List Nat) (n j : Nat), ¬((n + j) % 4 = 3 ∧ rm ((n + j) / 4) = true) →
      (applyData rm n l).getD j 0 = l.getD j 0 := by
  intro l
  induction l with
  | nil => intro n j _; rfl
  | cons b rest ih =>
    intro n j hneg
    cases j with
    | zero =>
      show (if (n % 4 == 3 && rm (n / 4)) = true then 0 else b) = b
      rw [if_neg]
      intro hand
      rw [Bool.and_eq_true] at hand
      apply hneg
      refine ⟨?_, ?_⟩
      · have := of_decide_eq_true hand.1
        omega
      · simpa using hand.2
    | succ j0 =>
      show (applyData rm (n + 1) rest).getD j0 0 = rest.getD j0 0
      apply ih
      intro hc
      apply hneg
      have harith : n + 1 + j0 = n + (j0 + 1) := by omega
      rw [harith] at hc
      exact hc

/-- C1: the background remover removes exactly the pixels whose channel
average exceeds the threshold AND that are 4-connectedly flood-reachable
from an above-threshold border pixel; every other pixel keeps its original
alpha byte.  In particular, on the 5x5 bitmap with a fully white border and
moat around a black centre, threshold 240 makes the white ring transparent
and leaves the black interior pixel opaque. -/
theorem removeBackground_flood_reachability :
    (∀ (img : Bitmap) (t : Int) (x y : Nat), x < img.width → y < img.height →
      (removeBackgroundSimple img t none = Except.ok (floodApply img t)) ∧
      (brightPix img t x y = true ∧ reachableFromBorder img t (x, y) →
        (floodApply img t).data.getD ((y * img.width + x) * 4 + 3) 0 = 0) ∧
      (¬(brightPix img t x y = true ∧ reachableFromBorder img t (x, y)) →
        (floodApply img t).data.getD ((y * img.width + x) * 4 + 3) 0 =
          img.data.getD ((y * img.width + x) * 4 + 3) 0)) ∧
    removeBackgroundSimple moat5 240 none = Except.ok moat5Out := by
  constructor
  · intro img t x y hx hy
    refine ⟨rfl, ?_, ?_⟩
    · intro hbr
      have hrm : floodRemove img t (pixIdx img.width (x, y)) = true :=
        (floodRemove_iff img t (x, y) ⟨hx, hy⟩).mpr hbr
      show (applyData (floodRemove img t) 0 img.data).getD ((y * img.width + x) * 4 + 3) 0 = 0
      apply applyData_getD_hit
      · omega
      · have hdiv : (0 + ((y * img.width + x) * 4 + 3)) / 4 = y * img.width + x := by omega
        rw [hdiv]
        exact hrm
    · intro hnbr
      have hrm : floodRemove img t (y * img.width + x) = false := by
        by_cases hb : floodRemove img t (pixIdx img.width (x, y)) = true
        · exact absurd ((floodRemove_iff img t (x, y) ⟨hx, hy⟩).mp hb) hnbr
        · exact Bool.eq_false_iff.mpr hb
      show (applyData (floodRemove img t) 0 img.data).getD ((y * img.width + x) * 4 + 3) 0 =
        img.data.getD ((y * img.width + x) * 4 + 3) 0
      apply applyData_getD_miss
      rintro ⟨hmod, hrmj⟩
      have hdiv : (0 + ((y * img.width + x) * 4 + 3)) / 4 = y * img.width + x := by omega
      rw [hdiv, hrm] at hrmj
      exact Bool.false_ne_true hrmj
  · decide

/-- Witness for C1 at the moat bitmap, threshold 240 and pixel (0, 0). -/
theorem removeBackground_flood_reachability_witness :
    (removeBackgroundSimple moat5 240 none = Except.ok (floodApply moat5 240)) ∧
    (brightPix moat5 240 0 0 = true ∧ reachableFromBorder moat5 240 (0, 0) →
      (floodApply moat5 240).data.getD ((0 * moat5.width + 0) * 4 + 3) 0 = 0) ∧
    (¬(brightPix moat5 240 0 0 = true ∧ reachableFromBorder moat5 240 (0, 0)) →
      (floodApply moat5 240).data.getD ((0 * moat5.width + 0) * 4 + 3) 0 =
        moat5.data.getD ((0 * moat5.width + 0) * 4 + 3) 0) :=
  removeBackground_flood_reachability.1 moat5 240 0 0 (by decide) (by decide)
